import Mathlib

/-!
Verification development for the JAX-RS endpoint discovery tool
(src/api_discovery.py).

The Python analyzer is a pattern-matching pass over source text.  Its
regular expressions are embedded here as executable character-level
matchers over List Char.  Each matcher follows the regex operationally:
literals are matched literally, character classes by predicates, and the
greedy quantifiers by takeWhile/dropWhile.  At every choice point of the
embedded patterns the relevant character classes are disjoint (word
characters, whitespace, parentheses, quotes), so the greedy resolution
used here coincides with the backtracking regex engine on inputs whose
annotation tokens are delimited from the following text, as in Java
source; all inputs appearing in the theorems below are of that form.
-/

namespace ApiDiscovery

/-- Python re class \w restricted to the characters appearing here. -/
def isWordChar (c : Char) : Bool := c.isAlpha || c.isDigit || c = '_'

/-- Python re class \s: space, tab, newline, carriage return, form feed, vertical tab. -/
def isSpaceChar (c : Char) : Bool :=
  c = ' ' || c = '\t' || c = '\n' || c = '\r' || c = Char.ofNat 11 || c = Char.ofNat 12

/-- The single-quote character. -/
def squote : Char := Char.ofNat 39

/-- The quote class used by the patterns: double or single quote. -/
def isQuoteChar (c : Char) : Bool := c = '"' || c = squote

/-- Match a literal character sequence at the front, returning the rest. -/
def dropLit : List Char → List Char → Option (List Char)
  | [], s => some s
  | c :: cs, d :: ds => if d = c then dropLit cs ds else none
  | _ :: _, [] => none

/-- Match one given character at the front. -/
def expectChar (c : Char) : List Char → Option (List Char)
  | d :: ds => if d = c then some ds else none
  | [] => none

/-- Match one quote character at the front. -/
def expectQuote : List Char → Option (List Char)
  | d :: ds => if isQuoteChar d then some ds else none
  | [] => none

/-- Greedy \s+ : at least one whitespace character, then all following whitespace. -/
def wsPlus : List Char → Option (List Char)
  | c :: cs => if isSpaceChar c then some (cs.dropWhile isSpaceChar) else none
  | [] => none

/-- Greedy \w+ : a nonempty maximal run of word characters, returned with the rest. -/
def wordPlus (s : List Char) : Option (List Char × List Char) :=
  let w := s.takeWhile isWordChar
  if w.isEmpty then none else some (w, s.dropWhile isWordChar)

/-- Python substring test: needle in hay. -/
def containsSub (needle : List Char) : List Char → Bool
  | [] => needle.isEmpty
  | c :: t => needle.isPrefixOf (c :: t) || containsSub needle t

/-- Leftmost match of a positional matcher, as Python re.search: try every
start position from the left.  (No pattern here matches the empty string,
so the end position never matches.) -/
def scanFirst (m : List Char → Option α) : List Char → Option α
  | [] => none
  | c :: cs =>
    match m (c :: cs) with
    | some r => some r
    | none => scanFirst m cs

/-- Leftmost match together with its start offset. -/
def findIndexOfMatch (m : List Char → Option α) : List Char → Option (Nat × α)
  | [] => none
  | c :: cs =>
    match m (c :: cs) with
    | some r => some (0, r)
    | none => (findIndexOfMatch m cs).map (fun p => (p.1 + 1, p.2))

/-! ## Data model (the dataclasses of api_discovery.py, restricted to the
fields the analyzer and the generator actually read or write) -/

inductive HttpMethod
  | GET | POST | PUT | DELETE | PATCH | HEAD | OPTIONS
deriving DecidableEq

/-- The .value attribute of the HttpMethod enum. -/
def HttpMethod.value : HttpMethod → String
  | .GET => "GET"
  | .POST => "POST"
  | .PUT => "PUT"
  | .DELETE => "DELETE"
  | .PATCH => "PATCH"
  | .HEAD => "HEAD"
  | .OPTIONS => "OPTIONS"

structure Parameter where
  name : String
  in_ : String
  type_ : String
  required : Bool
deriving DecidableEq

structure Endpoint where
  path : String
  method : HttpMethod
  operation_id : String
  summary : String := ""
  parameters : List Parameter
  consumes : List String
  produces : List String
deriving DecidableEq

structure APIResource where
  class_name : String
  base_path : String
  endpoints : List Endpoint
deriving DecidableEq

/-- One match of the method regex of _extract_endpoints: group(1) (the last
annotation block, or empty), group(2) (the method name), and group(0)
(the whole matched span). -/
structure MethodMatch where
  annotations : String
  methodName : String
  group0 : String
deriving DecidableEq

/-! ## _combine_paths -/

/-- Python rstrip of the slash character: remove all trailing slashes. -/
def rstripSlashAux : List Char → List Char
  | [] => []
  | c :: cs =>
    match rstripSlashAux cs with
    | [] => if c = '/' then [] else [c]
    | r => c :: r

/-- Python lstrip of the slash character: remove all leading slashes. -/
def lstripSlash (s : List Char) : List Char := s.dropWhile (fun c => c = '/')

/-- _combine_paths: empty base yields the method path (or a bare slash);
empty method path yields the base; otherwise the base with trailing
slashes removed, one slash, and the method path with leading slashes
removed. -/
def combine_paths (base_path method_path : String) : String :=
  if base_path = "" then (if method_path = "" then "/" else method_path)
  else if method_path = "" then base_path
  else String.mk (rstripSlashAux base_path.data ++ '/' :: lstripSlash method_path.data)

/-! ## _extract_http_method -/

/-- The HttpMethod-valued entries of JAX_RS_ANNOTATIONS in dict insertion
order (the '@Path', '@Consumes', '@Produces' and parameter entries map to
strings, and _extract_http_method skips them). -/
def httpMethodMarkers : List (String × HttpMethod) :=
  [("@GET", .GET), ("@POST", .POST), ("@PUT", .PUT), ("@DELETE", .DELETE),
   ("@HEAD", .HEAD), ("@OPTIONS", .OPTIONS), ("@PATCH", .PATCH)]

/-- _extract_http_method: the first HttpMethod marker that occurs as a
substring of the annotation text. -/
def extract_http_method (ann : String) : Option HttpMethod :=
  (httpMethodMarkers.find? (fun p => containsSub p.1.data ann.data)).map (fun p => p.2)

/-- The annotation text mentions at least one of the seven HTTP-method markers. -/
def hasHttpMarker (ann : String) : Bool :=
  httpMethodMarkers.any (fun p => containsSub p.1.data ann.data)

/-! ## The method regex of _extract_endpoints

Pattern: zero or more annotation blocks, each an at-sign, a word, an
optional parenthesized argument and trailing whitespace, followed by
optional whitespace, the word public, a return type, the method name and
a parenthesized span free of closing parentheses.  The repeated capture
group keeps only its last repetition, as in the Python re module. -/

/-- One repetition of the annotation-block group.  Returns the consumed
span and the rest.  An unclosed parenthesis falls back to the block
without the optional parenthesized part, which is where the regex engine
lands after declining the optional group. -/
def consumeBlock : List Char → Option (List Char × List Char)
  | '@' :: r0 =>
    let word := r0.takeWhile isWordChar
    let r1 := r0.dropWhile isWordChar
    if word.isEmpty then none
    else
      let ws1 := r1.takeWhile isSpaceChar
      let r2 := r1.dropWhile isSpaceChar
      if r2.head? = some '(' then
        let r3 := r2.tail
        let args := r3.takeWhile (fun c => c ≠ ')')
        let r4 := r3.dropWhile (fun c => c ≠ ')')
        if r4.head? = some ')' then
          let r5 := r4.tail
          let ws2 := r5.takeWhile isSpaceChar
          let r6 := r5.dropWhile isSpaceChar
          some ('@' :: (word ++ ws1 ++ '(' :: (args ++ ')' :: ws2)), r6)
        else some ('@' :: (word ++ ws1), r2)
      else some ('@' :: (word ++ ws1), r2)
  | _ => none

/-- The starred annotation group: greedily consume blocks; the capture is
the span of the last repetition (none when there are no repetitions).
Returns (last capture, total consumed, rest).  The fuel is always called
with at least the length of the input, which suffices because every block
consumes at least one character. -/
def consumeRunAux : Nat → List Char → Option (List Char) × List Char × List Char
  | 0, s => (none, [], s)
  | fuel + 1, s =>
    match consumeBlock s with
    | none => (none, [], s)
    | some (blk, r) =>
      let q := consumeRunAux fuel r
      (some (q.1.getD blk), blk ++ q.2.1, q.2.2)

/-- The tail of the method pattern after the annotation run: optional
whitespace, public, whitespace, return type, whitespace, the captured
method name, optional whitespace, and a parenthesized span that stops at
the first closing parenthesis.  Returns (method name, rest). -/
def matchSignatureRest (s : List Char) : Option (List Char × List Char) := do
  let r0 := s.dropWhile isSpaceChar
  let r1 ← dropLit "public".data r0
  let r2 ← wsPlus r1
  let (_, r3) ← wordPlus r2
  let r4 ← wsPlus r3
  let (name, r5) ← wordPlus r4
  let r6 := r5.dropWhile isSpaceChar
  let r7 ← expectChar '(' r6
  let r8 := r7.dropWhile (fun c => c ≠ ')')
  let r9 ← expectChar ')' r8
  pure (name, r9)

/-- A whole-pattern match attempt at one start position.  group(0) is the
consumed prefix; group(1) or empty is the annotation text. -/
def matchAt (s : List Char) : Option (MethodMatch × List Char) :=
  let q := consumeRunAux s.length s
  match matchSignatureRest q.2.2 with
  | none => none
  | some (name, rest) =>
    some ({ annotations := String.mk (q.1.getD [])
          , methodName := String.mk name
          , group0 := String.mk (s.take (s.length - rest.length)) }, rest)

/-- re.finditer: scan start positions left to right, emit non-overlapping
matches, resuming after each match end.  Every match consumes at least
one character, so fuel equal to the input length suffices. -/
def findAllAux : Nat → List Char → List MethodMatch
  | 0, _ => []
  | _ + 1, [] => []
  | fuel + 1, c :: cs =>
    match matchAt (c :: cs) with
    | some (m, rest) => m :: findAllAux fuel rest
    | none => findAllAux fuel cs

/-- All matches of the method pattern in the file content. -/
def findMatches (content : String) : List MethodMatch :=
  findAllAux content.data.length content.data

/-! ## Path, class, media-type and parameter patterns -/

/-- A path-annotation match at one position: at-sign, Path, optional
whitespace, opening parenthesis, optional whitespace, a quote, a nonempty
quote-free capture, a quote, optional whitespace, closing parenthesis.
Returns (capture, rest after the match). -/
def matchPathAnnotAt (s : List Char) : Option (List Char × List Char) := do
  let r0 ← dropLit "@Path".data s
  let r1 := r0.dropWhile isSpaceChar
  let r2 ← expectChar '(' r1
  let r3 := r2.dropWhile isSpaceChar
  let r4 ← expectQuote r3
  let cap := r4.takeWhile (fun c => !(isQuoteChar c))
  if cap.isEmpty then none
  else do
    let r5 := r4.dropWhile (fun c => !(isQuoteChar c))
    let r6 ← expectQuote r5
    let r7 := r6.dropWhile isSpaceChar
    let r8 ← expectChar ')' r7
    pure (cap, r8)

/-- A public-class declaration match at one position, capturing the class name. -/
def matchClassDeclAt (s : List Char) : Option (List Char) := do
  let r1 ← dropLit "public".data s
  let r2 ← wsPlus r1
  let r3 ← dropLit "class".data r2
  let r4 ← wsPlus r3
  let (name, _) ← wordPlus r4
  pure name

/-- The first strategy of _extract_class_path: a path annotation directly
followed (after optional whitespace and an optional public keyword) by
the class keyword.  When the optional public keyword matches but no
whitespace follows it, the engine declines the optional group; the class
keyword then cannot match the text starting with public, so that attempt
fails either way. -/
def matchClassPathAt (s : List Char) : Option (List Char) := do
  let (cap, r8) ← matchPathAnnotAt s
  let r9 := r8.dropWhile isSpaceChar
  let r10 :=
    match dropLit "public".data r9 with
    | some ra =>
      match wsPlus ra with
      | some rb => rb
      | none => r9
    | none => r9
  let _ ← dropLit "class".data r10
  pure cap

/-- _extract_method_path: first path-annotation capture in the annotation
text, else the empty string. -/
def extract_method_path (ann : String) : String :=
  match scanFirst matchPathAnnotAt ann.data with
  | some (cap, _) => String.mk cap
  | none => ""

/-- _extract_class_name: the first public-class declaration, else Unknown. -/
def extract_class_name (content : String) : String :=
  match scanFirst matchClassDeclAt content.data with
  | some name => String.mk name
  | none => "Unknown"

/-- _extract_class_path: first the adjacent class pattern; otherwise the
first path annotation anywhere, accepted only if a class declaration
starts within 100 characters after it. -/
def extract_class_path (content : String) : Option String :=
  match scanFirst matchClassPathAt content.data with
  | some cap => some (String.mk cap)
  | none =>
    match scanFirst matchPathAnnotAt content.data with
    | some (cap, rest) =>
      match findIndexOfMatch matchClassDeclAt rest with
      | some (idx, _) => if idx < 100 then some (String.mk cap) else none
      | none => none
    | none => none

/-- One qualification pattern of _is_jaxrs_resource: at-sign, Path,
optional whitespace, opening parenthesis. -/
def matchPathOpenAt (s : List Char) : Option Unit := do
  let r0 ← dropLit "@Path".data s
  let r1 := r0.dropWhile isSpaceChar
  let _ ← expectChar '(' r1
  pure ()

/-- An HTTP marker followed by one whitespace character ([\s\n] is \s). -/
def matchMarkerWsAt (lit : List Char) (s : List Char) : Option Unit := do
  let r0 ← dropLit lit s
  match r0 with
  | c :: _ => if isSpaceChar c then some () else none
  | [] => none

/-- _is_jaxrs_resource: the content mentions a path declaration or one of
the GET, POST, PUT, DELETE markers followed by whitespace. -/
def is_jaxrs_resource (content : String) : Bool :=
  (scanFirst matchPathOpenAt content.data).isSome ||
  (scanFirst (matchMarkerWsAt "@GET".data) content.data).isSome ||
  (scanFirst (matchMarkerWsAt "@POST".data) content.data).isSome ||
  (scanFirst (matchMarkerWsAt "@PUT".data) content.data).isSome ||
  (scanFirst (matchMarkerWsAt "@DELETE".data) content.data).isSome

/-- The body of the media-type pattern after the opening parenthesis and
optional brace: a nonempty capture of characters other than the closing
parenthesis, then (after the always-empty optional tail) the closing
parenthesis itself. -/
def mediaCore (r : List Char) : Option (List Char) :=
  let cap := r.takeWhile (fun c => c ≠ ')')
  if cap.isEmpty then none
  else
    let r2 := r.dropWhile (fun c => c ≠ ')')
    match expectChar ')' r2 with
    | some _ => some cap
    | none => none

/-- The opening-brace character. -/
def lbrace : Char := Char.ofNat 123

/-- The media-type pattern at one position: the annotation literal,
optional whitespace, opening parenthesis, optional whitespace, optional
opening brace (declined if the remainder cannot match), and the body. -/
def matchMediaAt (annType : List Char) (s : List Char) : Option (List Char) := do
  let r0 ← dropLit annType s
  let r1 := r0.dropWhile isSpaceChar
  let r2 ← expectChar '(' r1
  let r3 := r2.dropWhile isSpaceChar
  match r3 with
  | c :: r4 =>
    if c = lbrace then
      match mediaCore (r4.dropWhile isSpaceChar) with
      | some cap => some cap
      | none => mediaCore r3
    else mediaCore r3
  | [] => none

/-- One quoted-literal match of the findall pattern inside a media-type
argument: a quote, a nonempty quote-free capture, a quote. -/
def matchQuotedAt (s : List Char) : Option (List Char × List Char) := do
  let r0 ← expectQuote s
  let cap := r0.takeWhile (fun c => !(isQuoteChar c))
  if cap.isEmpty then none
  else do
    let r1 := r0.dropWhile (fun c => !(isQuoteChar c))
    let r2 ← expectQuote r1
    pure (cap, r2)

/-- re.findall of the quoted-literal pattern: left to right, non-overlapping. -/
def findQuotedAux : Nat → List Char → List (List Char)
  | 0, _ => []
  | _ + 1, [] => []
  | fuel + 1, c :: cs =>
    match matchQuotedAt (c :: cs) with
    | some (cap, rest) => cap :: findQuotedAux fuel rest
    | none => findQuotedAux fuel cs

/-- _extract_media_types: the quoted literals inside the first media
annotation of the requested kind, else the empty list. -/
def extract_media_types (ann : String) (annType : String) : List String :=
  match scanFirst (matchMediaAt annType.data) ann.data with
  | some cap => (findQuotedAux cap.length cap).map String.mk
  | none => []

/-- The parameter-binding pattern at one position: an at-sign, a word run
that must end in Param with at least one character before it, optional
whitespace, a parenthesized nonempty quoted name, whitespace, a Java type
word, whitespace, a variable-name word.  Returns (kind word, name, Java
type, variable name, rest). -/
def matchParamAt (s : List Char) :
    Option (List Char × List Char × List Char × List Char × List Char) := do
  let r0 ← expectChar '@' s
  let (run, r1) ← wordPlus r0
  if ("Param".data.isSuffixOf run && decide (5 < run.length)) then do
    let r2 := r1.dropWhile isSpaceChar
    let r3 ← expectChar '(' r2
    let r4 := r3.dropWhile isSpaceChar
    let r5 ← expectQuote r4
    let pname := r5.takeWhile (fun c => !(isQuoteChar c))
    if pname.isEmpty then none
    else do
      let r6 := r5.dropWhile (fun c => !(isQuoteChar c))
      let r7 ← expectQuote r6
      let r8 := r7.dropWhile isSpaceChar
      let r9 ← expectChar ')' r8
      let r10 ← wsPlus r9
      let (jt, r11) ← wordPlus r10
      let r12 ← wsPlus r11
      let (vn, r13) ← wordPlus r12
      pure (run, pname, jt, vn, r13)
  else none

/-- re.finditer of the parameter-binding pattern. -/
def paramFindAllAux : Nat → List Char → List (List Char × List Char × List Char × List Char)
  | 0, _ => []
  | _ + 1, [] => []
  | fuel + 1, c :: cs =>
    match matchParamAt (c :: cs) with
    | some (k, n, jt, vn, rest) => (k, n, jt, vn) :: paramFindAllAux fuel rest
    | none => paramFindAllAux fuel cs

/-- All parameter-binding matches in a method-signature span. -/
def paramMatches (s : String) : List (List Char × List Char × List Char × List Char) :=
  paramFindAllAux s.data.length s.data

/-- _map_java_to_openapi_type. -/
def map_java_to_openapi_type (jt : String) : String :=
  if jt = "String" then "string"
  else if jt = "int" then "integer"
  else if jt = "Integer" then "integer"
  else if jt = "long" then "integer"
  else if jt = "Long" then "integer"
  else if jt = "float" then "number"
  else if jt = "Float" then "number"
  else if jt = "double" then "number"
  else if jt = "Double" then "number"
  else if jt = "boolean" then "boolean"
  else if jt = "Boolean" then "boolean"
  else if jt = "Date" then "string"
  else if jt = "LocalDate" then "string"
  else if jt = "LocalDateTime" then "string"
  else "string"

/-- The kind filter of _extract_parameters together with the
JAX_RS_ANNOTATIONS lookup for the four collected kinds.  The FormParam
kind is matched by the binding pattern but is absent from this filter, so
it is never collected. -/
def paramKindLoc (k : String) : Option String :=
  if k = "PathParam" then some "path"
  else if k = "QueryParam" then some "query"
  else if k = "HeaderParam" then some "header"
  else if k = "CookieParam" then some "cookie"
  else none

/-- The loop body of _extract_parameters for one binding match. -/
def mkParamOfMatch (m : List Char × List Char × List Char × List Char) : Option Parameter :=
  match paramKindLoc (String.mk m.1) with
  | some loc =>
    some { name := String.mk m.2.1
         , in_ := loc
         , type_ := map_java_to_openapi_type (String.mk m.2.2.1)
         , required := decide (loc = "path") }
  | none => none

/-- _extract_parameters over the matched method span (group(0)). -/
def extract_parameters (method_signature : String) : List Parameter :=
  (paramMatches method_signature).filterMap mkParamOfMatch

/-! ## _extract_endpoints and the per-file pipeline -/

/-- The loop body of _extract_endpoints for one method match: skip unless
an HTTP marker is present, then build the endpoint with combined path,
parameters from group(0), and media types defaulting to the generic JSON
type when none were extracted. -/
def mkEndpointOfMatch (base_path : String) (m : MethodMatch) : Option Endpoint :=
  match extract_http_method m.annotations with
  | none => none
  | some hm =>
    let cons := extract_media_types m.annotations "@Consumes"
    let prods := extract_media_types m.annotations "@Produces"
    some { path := combine_paths base_path (extract_method_path m.annotations)
         , method := hm
         , operation_id := m.methodName
         , parameters := extract_parameters m.group0
         , consumes := if cons.isEmpty then ["application/json"] else cons
         , produces := if prods.isEmpty then ["application/json"] else prods }

/-- The _extract_endpoints loop over a given match list. -/
def endpointsOfMatches (base_path : String) (ms : List MethodMatch) : List Endpoint :=
  ms.filterMap (mkEndpointOfMatch base_path)

/-- _extract_endpoints. -/
def extract_endpoints (content : String) (base_path : String) : List Endpoint :=
  endpointsOfMatches base_path (findMatches content)

/-- _analyze_java_file on a file content (the file read cannot fail in the
model; a None base path and an empty base path behave identically in
_combine_paths, so the base is passed as a string). -/
def analyze_java_file (content : String) : Option APIResource :=
  if !(is_jaxrs_resource content) then none
  else
    let base := (extract_class_path content).getD ""
    some { class_name := extract_class_name content
         , base_path := base
         , endpoints := extract_endpoints content base }

/-- The analyze loop: keep each file resource that exists and has at least
one endpoint. -/
def analyzeFiles (files : List String) : List APIResource :=
  files.filterMap (fun c =>
    match analyze_java_file c with
    | some r => if r.endpoints.isEmpty then none else some r
    | none => none)

/-- JaxRSAnalyzer.analyze: append the discovered resources to the
persistent resources field and return that field.  Returns (result, new
state of the resources field). -/
def analyzerAnalyze (files : List String) (resources : List APIResource) :
    List APIResource × List APIResource :=
  let rs := resources ++ analyzeFiles files
  (rs, rs)

/-! ## OpenAPIGenerator -/

/-- One operation object of the generated document, with the fields
generate builds: operation id, summary, tags, responses (status code to
the media types of the response content), the optional parameter list
(present only when nonempty) and the optional request body (present for
POST, PUT and PATCH with nonempty consumes). -/
structure Operation where
  operationId : String
  summary : String
  tags : List String
  responses : List (String × List String)
  parameters : Option (List Parameter)
  requestBody : Option (List String)
deriving DecidableEq

/-- endpoint.method.value.lower(). -/
def methodLower (m : HttpMethod) : String := m.value.toLower

/-- The operation object generate builds for one endpoint. -/
def mkOperation (className : String) (e : Endpoint) : Operation :=
  { operationId := e.operation_id
  , summary := if e.summary = "" then e.method.value ++ " " ++ e.path else e.summary
  , tags := [className]
  , responses := [("200", e.produces)]
  , parameters := if e.parameters.isEmpty then none else some e.parameters
  , requestBody :=
      if (decide (e.method = HttpMethod.POST) || decide (e.method = HttpMethod.PUT)
          || decide (e.method = HttpMethod.PATCH)) && !(e.consumes.isEmpty)
      then some e.consumes else none }

/-- Python dict lookup on an insertion-ordered association list. -/
def lookupA (k : String) : List (String × β) → Option β
  | [] => none
  | (k2, v) :: t => if k2 = k then some v else lookupA k t

/-- Python dict assignment: overwrite in place, or append a new key at the end. -/
def upsertA (k : String) (v : β) : List (String × β) → List (String × β)
  | [] => [(k, v)]
  | (k2, v2) :: t => if k2 = k then (k, v) :: t else (k2, v2) :: upsertA k v t

/-- The paths object: path to (lowercased method to operation). -/
abbrev PathsDoc := List (String × List (String × Operation))

/-- The inner loop body of generate for one endpoint. -/
def addEndpointToPaths (className : String) (e : Endpoint) (paths : PathsDoc) : PathsDoc :=
  let inner := (lookupA e.path paths).getD []
  upsertA e.path (upsertA (methodLower e.method) (mkOperation className e) inner) paths

/-- The paths object generate builds from the resource list. -/
def generatePaths (resources : List APIResource) : PathsDoc :=
  resources.foldl
    (fun acc r => r.endpoints.foldl (fun acc2 e => addEndpointToPaths r.class_name e acc2) acc)
    []

/-- The generated OpenAPI document (info and servers are fixed text). -/
structure OpenAPISpec where
  openapi : String
  title : String
  version : String
  paths : PathsDoc
deriving DecidableEq

/-- OpenAPIGenerator.generate. -/
def openAPIGenerate (resources : List APIResource) (title version : String) : OpenAPISpec :=
  { openapi := "3.0.0", title := title, version := version, paths := generatePaths resources }

/-- The (path, lowercased method) pair occurs as a path/operation key pair
in a paths object. -/
def pathsHasPair (paths : PathsDoc) (p m : String) : Prop :=
  ∃ ops, lookupA p paths = some ops ∧ (lookupA m ops).isSome = true

/-! ## The main run -/

/-- The observable effects of main, in order. -/
inductive MainEffect
  | mkdirOutput
  | info (msg : String)
  | wroteFile (name : String)
deriving DecidableEq

/-- main: create the output directory, print, analyze; with no resources,
print the informational message and return before either generator runs;
otherwise print the summary and write the two documents. -/
def mainModel (files : List String) : List MainEffect :=
  let rs := analyzeFiles files
  MainEffect.mkdirOutput :: MainEffect.info "Analyzing repository" ::
  (if rs.isEmpty then [MainEffect.info "No JAX-RS APIs found in the repository"]
   else MainEffect.info "Found API resources" ::
        (rs.map (fun r => MainEffect.info r.class_name) ++
         [MainEffect.wroteFile "openapi.yaml", MainEffect.info "Generated OpenAPI spec",
          MainEffect.wroteFile "catalog-info.yaml", MainEffect.info "Generated Backstage catalog"]))

/-! ## A family of well-delimited annotation blocks, used to state the
last-repetition property of the repeated capture group -/

/-- An annotation block: a name and an optional parenthesized argument;
rendered on its own line as in Java source. -/
structure Annot where
  name : List Char
  arg : Option (List Char)

/-- The source text of the block: at-sign, name, optional parenthesized
argument, newline. -/
def Annot.render (a : Annot) : List Char :=
  '@' :: (a.name ++
    (match a.arg with
     | some t => '(' :: (t ++ [')'])
     | none => []) ++ ['\n'])

/-- Well-formedness: nonempty word-character name, and an argument free of
closing parentheses. -/
def validAnnot (a : Annot) : Bool :=
  !(a.name.isEmpty) && a.name.all isWordChar &&
  (match a.arg with
   | some t => t.all (fun c => c ≠ ')')
   | none => true)

/-- The concatenated source text of a list of blocks. -/
def renderAll : List Annot → List Char
  | [] => []
  | a :: t => a.render ++ renderAll t

/-- A minimal public method signature following the annotation blocks. -/
def sigM : List Char := "public String m()".data

/-- The concrete one-file directory content of the end-to-end property:
class-level path /users, one public method annotated only with GET. -/
def usersContent : String :=
  "@Path(\"/users\")\npublic class UserResource\n    @GET\n    public String getUsers()\n"

/-! # Theorems -/

theorem takeWhile_append_all (p : Char → Bool) (l r : List Char) (h : ∀ c ∈ l, p c = true) :
    (l ++ r).takeWhile p = l ++ r.takeWhile p := by
  induction l with
  | nil => simp
  | cons c cs ih =>
    simp only [List.cons_append, List.takeWhile_cons]
    rw [h c (by simp)]
    simp [ih (fun d hd => h d (by simp [hd]))]

theorem dropWhile_append_all (p : Char → Bool) (l r : List Char) (h : ∀ c ∈ l, p c = true) :
    (l ++ r).dropWhile p = r.dropWhile p := by
  induction l with
  | nil => simp
  | cons c cs ih =>
    simp only [List.cons_append, List.dropWhile_cons]
    rw [h c (by simp)]
    simp [ih (fun d hd => h d (by simp [hd]))]

theorem rstripSlashAux_eq (l : List Char) :
    rstripSlashAux l = (l.reverse.dropWhile (fun c => c = '/')).reverse := by
  induction l with
  | nil => rfl
  | cons c cs ih =>
    rw [List.reverse_cons, List.dropWhile_append]
    cases h1 : rstripSlashAux cs with
    | nil =>
      have hd : cs.reverse.dropWhile (fun c => c = '/') = [] := by
        have := ih.symm.trans h1
        simpa using this
      simp only [rstripSlashAux, h1, hd, List.isEmpty_nil, if_true]
      by_cases hc : c = '/'
      · simp [List.dropWhile_cons, hc]
      · simp [List.dropWhile_cons, hc]
    | cons y ys =>
      have hd : cs.reverse.dropWhile (fun c => c = '/') = (y :: ys).reverse := by
        have := ih.symm.trans h1
        simpa using this
      have hne : (cs.reverse.dropWhile (fun c => c = '/')).isEmpty = false := by
        rw [hd]; simp
      simp only [rstripSlashAux, h1, hne, if_false, List.reverse_append, hd]
      simp

/-- Claim C1 (corrected): with nonempty class and method paths,
_combine_paths removes the trailing slashes of the class path and the
leading slashes of the method path and joins with one slash; the method
path keeps its own trailing slashes.  Base /a/ with method /b gives /a/b,
but base /a with method b/ gives /a/b/ (not /a/b as claimed).  An empty
class path yields the method path, or a bare slash when both are empty;
an empty method path yields the class path. -/
theorem c1_combine_paths_amended (b m : String) (hb : b ≠ "") (hm : m ≠ "") :
    combine_paths b m =
      String.mk ((b.data.reverse.dropWhile (fun c => c = '/')).reverse
        ++ '/' :: m.data.dropWhile (fun c => c = '/')) ∧
    combine_paths "/a/" "/b" = "/a/b" ∧
    combine_paths "/a" "b/" = "/a/b/" ∧
    (∀ mp : String, combine_paths "" mp = if mp = "" then "/" else mp) ∧
    (∀ bp : String, bp ≠ "" → combine_paths bp "" = bp) := by
  refine ⟨?_, by decide, by decide, ?_, ?_⟩
  · rw [combine_paths, if_neg hb, if_neg hm, rstripSlashAux_eq]
    rfl
  · intro mp
    rw [combine_paths, if_pos rfl]
  · intro bp h
    rw [combine_paths, if_neg h, if_pos rfl]

/-- Claim C1 counterexample: the claim asserts that base /a with method b/
combines to exactly /a/b, but _combine_paths only strips leading slashes
from the method fragment, so the trailing slash survives. -/
theorem c1_counterexample :
    combine_paths "/a" "b/" = "/a/b/" ∧ combine_paths "/a" "b/" ≠ "/a/b" := by
  constructor
  · rfl
  · decide

theorem c1_witness :
    combine_paths "/a/" "/b" =
      String.mk (("/a/".data.reverse.dropWhile (fun c => c = '/')).reverse
        ++ '/' :: "/b".data.dropWhile (fun c => c = '/')) :=
  (c1_combine_paths_amended "/a/" "/b" (by decide) (by decide)).1

/-- Claim C10: analyze appends to the persistent resources list without
clearing it and returns that list, so a second run over the same files
returns the first result concatenated with itself. -/
theorem c10_analyze_not_idempotent (files : List String) :
    (analyzerAnalyze files (analyzerAnalyze files []).2).1 =
      (analyzerAnalyze files []).1 ++ (analyzerAnalyze files []).1 ∧
    (analyzerAnalyze files []).1 = analyzeFiles files := by
  simp [analyzerAnalyze]

/-- Claim C9: with zero discovered resources, main prints the
informational message and returns cleanly before either generator runs;
a file write occurs in the effect trace exactly when at least one
resource was found. -/
theorem c9_empty_no_output (files : List String) :
    ((∃ n, MainEffect.wroteFile n ∈ mainModel files) ↔ analyzeFiles files ≠ []) ∧
    (analyzeFiles files = [] →
      mainModel files =
        [MainEffect.mkdirOutput, MainEffect.info "Analyzing repository",
         MainEffect.info "No JAX-RS APIs found in the repository"]) := by
  cases h : analyzeFiles files with
  | nil =>
    constructor
    · simp [mainModel, h]
    · intro _
      simp [mainModel, h]
  | cons r t =>
    constructor
    · constructor
      · intro _
        simp
      · intro _
        exact ⟨"openapi.yaml", by simp [mainModel, h]⟩
    · intro hc
      exact absurd hc (by simp)

theorem c9_witness :
    mainModel [""] =
      [MainEffect.mkdirOutput, MainEffect.info "Analyzing repository",
       MainEffect.info "No JAX-RS APIs found in the repository"] :=
  (c9_empty_no_output [""]).2 (by decide)

/-- Every parameter the loop body of _extract_parameters constructs is in
one of the four collected locations, with required exactly for path. -/
theorem mkParamOfMatch_shape (m : List Char × List Char × List Char × List Char)
    (p : Parameter) (h : mkParamOfMatch m = some p) :
    (p.in_ = "path" ∧ p.required = true) ∨
    (p.in_ = "query" ∧ p.required = false) ∨
    (p.in_ = "header" ∧ p.required = false) ∨
    (p.in_ = "cookie" ∧ p.required = false) := by
  unfold mkParamOfMatch paramKindLoc at h
  split_ifs at h with h1 h2 h3 h4
  · simp only [Option.some.injEq] at h
    subst h
    left
    exact ⟨rfl, rfl⟩
  · simp only [Option.some.injEq] at h
    subst h
    right
    left
    exact ⟨rfl, rfl⟩
  · simp only [Option.some.injEq] at h
    subst h
    right
    right
    left
    exact ⟨rfl, rfl⟩
  · simp only [Option.some.injEq] at h
    subst h
    right
    right
    right
    exact ⟨rfl, rfl⟩

theorem extract_parameters_shape (s : String) (p : Parameter)
    (hp : p ∈ extract_parameters s) :
    (p.in_ = "path" ∧ p.required = true) ∨
    (p.in_ = "query" ∧ p.required = false) ∨
    (p.in_ = "header" ∧ p.required = false) ∨
    (p.in_ = "cookie" ∧ p.required = false) := by
  unfold extract_parameters at hp
  obtain ⟨m, _, hm⟩ := List.mem_filterMap.mp hp
  exact mkParamOfMatch_shape m p hm

/-- The endpoint built from a method match takes its parameters from
group(0). -/
theorem mkEndpointOfMatch_parameters (base : String) (m : MethodMatch) (e : Endpoint)
    (h : mkEndpointOfMatch base m = some e) :
    e.parameters = extract_parameters m.group0 := by
  unfold mkEndpointOfMatch at h
  cases hx : extract_http_method m.annotations with
  | none => rw [hx] at h; exact absurd h (by simp)
  | some hm =>
    rw [hx] at h
    simp only [Option.some.injEq] at h
    subst h
    rfl

/-- Claim C5: every extracted parameter located at path is required, and
every extracted parameter located at query, header or cookie is not
required; this holds both for _extract_parameters itself and for every
parameter of every endpoint produced by _extract_endpoints. -/
theorem c5_path_params_required :
    (∀ (s : String), ∀ p ∈ extract_parameters s,
       (p.in_ = "path" → p.required = true) ∧
       (p.in_ = "query" ∨ p.in_ = "header" ∨ p.in_ = "cookie" → p.required = false)) ∧
    (∀ (content base : String), ∀ e ∈ extract_endpoints content base, ∀ p ∈ e.parameters,
       (p.in_ = "path" → p.required = true) ∧
       (p.in_ = "query" ∨ p.in_ = "header" ∨ p.in_ = "cookie" → p.required = false)) := by
  have core : ∀ (s : String), ∀ p ∈ extract_parameters s,
      (p.in_ = "path" → p.required = true) ∧
      (p.in_ = "query" ∨ p.in_ = "header" ∨ p.in_ = "cookie" → p.required = false) := by
    intro s p hp
    rcases extract_parameters_shape s p hp with ⟨h1, h2⟩ | ⟨h1, h2⟩ | ⟨h1, h2⟩ | ⟨h1, h2⟩ <;>
      refine ⟨fun hq => ?_, fun hq => ?_⟩ <;> simp_all
  refine ⟨core, ?_⟩
  intro content base e he p hp
  obtain ⟨m, _, hm⟩ := List.mem_filterMap.mp he
  rw [mkEndpointOfMatch_parameters base m e hm] at hp
  exact core m.group0 p hp

theorem c5_witness :
    ({ name := "id", in_ := "path", type_ := "integer", required := true } : Parameter).required = true :=
  (c5_path_params_required.1 "@PathParam(\"id\") int id"
    { name := "id", in_ := "path", type_ := "integer", required := true } (by decide)).1 rfl

/-- Claim C7: a FormParam binding is matched by the parameter-binding
pattern but is excluded by the kind filter, so no extracted parameter is
located at formData; every extracted parameter is located at path, query,
header or cookie.  Shown for _extract_parameters in general, with the
concrete FormParam match exhibiting the matched-but-excluded behavior. -/
theorem c7_formdata_excluded :
    (∀ (s : String), ∀ p ∈ extract_parameters s,
       p.in_ ≠ "formData" ∧
       (p.in_ = "path" ∨ p.in_ = "query" ∨ p.in_ = "header" ∨ p.in_ = "cookie")) ∧
    (paramMatches "@FormParam(\"f\") String v").map (fun m => String.mk m.1) = ["FormParam"] ∧
    extract_parameters "@FormParam(\"f\") String v" = [] := by
  refine ⟨?_, by decide, by decide⟩
  intro s p hp
  rcases extract_parameters_shape s p hp with ⟨h1, _⟩ | ⟨h1, _⟩ | ⟨h1, _⟩ | ⟨h1, _⟩ <;>
    rw [h1] <;> exact ⟨by decide, by simp⟩

theorem c7_witness :
    ({ name := "id", in_ := "path", type_ := "integer", required := true } : Parameter).in_ ≠ "formData" :=
  (c7_formdata_excluded.1 "@PathParam(\"id\") int id"
    { name := "id", in_ := "path", type_ := "integer", required := true } (by decide)).1

/-- Claim C6: when no quoted media types were extracted for Consumes the
endpoint consumes exactly the generic JSON list, independently likewise
for Produces, and every emitted endpoint has nonempty consumes and
produces. -/
theorem c6_media_defaults (content base : String) (e : Endpoint)
    (he : e ∈ extract_endpoints content base) :
    (∃ m, m ∈ findMatches content ∧ mkEndpointOfMatch base m = some e ∧
      (extract_media_types m.annotations "@Consumes" = [] → e.consumes = ["application/json"]) ∧
      (extract_media_types m.annotations "@Produces" = [] → e.produces = ["application/json"])) ∧
    e.consumes ≠ [] ∧ e.produces ≠ [] := by
  obtain ⟨m, hmem, hm⟩ := List.mem_filterMap.mp he
  have hshape : e.consumes = (if (extract_media_types m.annotations "@Consumes").isEmpty
        then ["application/json"] else extract_media_types m.annotations "@Consumes") ∧
      e.produces = (if (extract_media_types m.annotations "@Produces").isEmpty
        then ["application/json"] else extract_media_types m.annotations "@Produces") := by
    unfold mkEndpointOfMatch at hm
    cases hx : extract_http_method m.annotations with
    | none => rw [hx] at hm; exact absurd hm (by simp)
    | some hv =>
      rw [hx] at hm
      simp only [Option.some.injEq] at hm
      subst hm
      exact ⟨rfl, rfl⟩
  obtain ⟨hc, hp⟩ := hshape
  refine ⟨⟨m, hmem, hm, ?_, ?_⟩, ?_, ?_⟩
  · intro hz; rw [hc, hz]; rfl
  · intro hz; rw [hp, hz]; rfl
  · rw [hc]
    cases hz : extract_media_types m.annotations "@Consumes" with
    | nil => simp
    | cons a t => simp
  · rw [hp]
    cases hz : extract_media_types m.annotations "@Produces" with
    | nil => simp
    | cons a t => simp

theorem c6_witness :
    ({ path := "/users", method := HttpMethod.GET, operation_id := "getUsers",
       parameters := [], consumes := ["application/json"],
       produces := ["application/json"] } : Endpoint).consumes ≠ [] :=
  (c6_media_defaults usersContent "/users"
    { path := "/users", method := HttpMethod.GET, operation_id := "getUsers",
      parameters := [], consumes := ["application/json"],
      produces := ["application/json"] } (by decide)).2.1

/-- The loop body of _extract_endpoints skips a match without an HTTP marker. -/
theorem mkEndpointOfMatch_none (base : String) (m : MethodMatch)
    (h : extract_http_method m.annotations = none) :
    mkEndpointOfMatch base m = none := by
  unfold mkEndpointOfMatch
  rw [h]

/-- Claim C4: the extraction loop emits nothing for a method match whose
annotation text has no HTTP-method marker (and raises no error: the loop
is total), whatever other annotations are present; absence of a marker is
exactly what makes _extract_http_method return none. -/
theorem c4_no_marker_skipped :
    (∀ (base : String) (ms : List MethodMatch),
       endpointsOfMatches base ms =
         endpointsOfMatches base
           (ms.filter (fun m => (extract_http_method m.annotations).isSome))) ∧
    (∀ ann : String, extract_http_method ann = none ↔ hasHttpMarker ann = false) := by
  constructor
  · intro base ms
    induction ms with
    | nil => rfl
    | cons m t ih =>
      unfold endpointsOfMatches at *
      cases hx : extract_http_method m.annotations with
      | none =>
        simp only [List.filterMap_cons, List.filter_cons, hx, Option.isSome_none,
          mkEndpointOfMatch_none base m hx]
        simpa using ih
      | some hv =>
        simp only [List.filterMap_cons, List.filter_cons, hx, Option.isSome_some]
        simp only [if_true, List.filterMap_cons]
        rw [← ih]
  · intro ann
    unfold extract_http_method hasHttpMarker
    rw [Option.map_eq_none', List.find?_eq_none]
    constructor
    · intro h
      rw [List.any_eq_false]
      intro x hx
      simpa using h x hx
    · intro h x hx
      have := List.any_eq_false.mp h x hx
      simpa using this

/-- Claim C3: the end-to-end run on a directory with exactly one
qualifying file (class path /users, one public GET method with no method
path and no parameters) produces exactly one resource with exactly one
endpoint at path /users, method GET, empty parameters, and consumes and
produces both exactly the generic JSON list. -/
theorem c3_end_to_end_users :
    analyzeFiles [usersContent] =
      [{ class_name := "UserResource", base_path := "/users",
         endpoints := [{ path := "/users", method := HttpMethod.GET,
                         operation_id := "getUsers", parameters := [],
                         consumes := ["application/json"],
                         produces := ["application/json"] }] }] := by
  decide

theorem takeWhile_all_stop (p : Char → Bool) (l : List Char) (rest : List Char) (c : Char)
    (hl : ∀ x ∈ l, p x = true) (hc : p c = false) :
    (l ++ c :: rest).takeWhile p = l ∧ (l ++ c :: rest).dropWhile p = c :: rest := by
  constructor
  · rw [takeWhile_append_all p l _ hl]
    simp [List.takeWhile_cons, hc]
  · rw [dropWhile_append_all p l _ hl]
    simp [List.dropWhile_cons, hc]

theorem findAllAux_nil (f : Nat) : findAllAux f [] = [] := by
  cases f <;> rfl

theorem consumeRunAux_stop (s : List Char) (h : consumeBlock s = none) (f : Nat) :
    consumeRunAux f s = (none, [], s) := by
  cases f with
  | zero => rfl
  | succ f' =>
    rw [consumeRunAux, h]

/-- The head of the text of a nonempty block list is the at-sign. -/
theorem renderAll_cons_head (x : Annot) (l : List Annot) (r : List Char) :
    (renderAll (x :: l) ++ r).head? = some '@' := by
  simp [renderAll, Annot.render]

/-- One repetition of the annotation-block group consumes exactly one
well-formed rendered block when the following text starts with another
block or with the signature. -/
theorem consumeBlock_render (a : Annot) (rest : List Char)
    (hv : validAnnot a = true)
    (hr : rest.head? = some '@' ∨ rest.head? = some 'p') :
    consumeBlock (a.render ++ rest) = some (a.render, rest) := by
  simp only [validAnnot, Bool.and_eq_true] at hv
  obtain ⟨⟨hne, hall⟩, hargall⟩ := hv
  have hname : a.name.isEmpty = false := by simpa using hne
  have hword : ∀ c ∈ a.name, isWordChar c = true := fun c hc =>
    List.all_eq_true.mp hall c hc
  cases rest with
  | nil => simp at hr
  | cons c0 cs0 =>
    have hc0 : c0 = '@' ∨ c0 = 'p' := by
      rcases hr with h | h
      · left; simpa using h
      · right; simpa using h
    have hc0s : isSpaceChar c0 = false := by
      rcases hc0 with h | h <;> subst h <;> decide
    have hc0w : (c0 = '(') = False := by
      rcases hc0 with h | h <;> subst h <;> simp
    cases harg : a.arg with
    | none =>
      have ha : a.render ++ c0 :: cs0 = '@' :: (a.name ++ '\n' :: c0 :: cs0) := by
        simp [Annot.render, harg]
      rw [ha, consumeBlock]
      obtain ⟨ht, hd⟩ := takeWhile_all_stop isWordChar a.name (c0 :: cs0) '\n' hword (by decide)
      rw [ht, hd, hname]
      simp only [Bool.false_eq_true, if_false]
      have hws : ('\n' :: c0 :: cs0).takeWhile isSpaceChar = ['\n'] := by
        simp [List.takeWhile_cons, hc0s, show isSpaceChar '\n' = true from rfl]
      have hwd : ('\n' :: c0 :: cs0).dropWhile isSpaceChar = c0 :: cs0 := by
        simp [List.dropWhile_cons, hc0s, show isSpaceChar '\n' = true from rfl]
      rw [hws, hwd]
      rw [if_neg (by simp [hc0w])]
      simp [Annot.render, harg]
    | some t =>
      have hargs : ∀ c ∈ t, (fun c => decide (c ≠ ')')) c = true := by
        rw [harg] at hargall
        exact fun c hc => List.all_eq_true.mp hargall c hc
      have ha : a.render ++ c0 :: cs0 =
          '@' :: (a.name ++ '(' :: (t ++ ')' :: '\n' :: c0 :: cs0)) := by
        simp [Annot.render, harg]
      rw [ha, consumeBlock]
      obtain ⟨ht, hd⟩ := takeWhile_all_stop isWordChar a.name (t ++ ')' :: '\n' :: c0 :: cs0)
        '(' hword (by decide)
      rw [ht, hd, hname]
      simp only [Bool.false_eq_true, if_false]
      have hws : ('(' :: (t ++ ')' :: '\n' :: c0 :: cs0)).takeWhile isSpaceChar = [] := by
        simp [List.takeWhile_cons, show isSpaceChar '(' = false from rfl]
      have hwd : ('(' :: (t ++ ')' :: '\n' :: c0 :: cs0)).dropWhile isSpaceChar =
          '(' :: (t ++ ')' :: '\n' :: c0 :: cs0) := by
        simp [List.dropWhile_cons, show isSpaceChar '(' = false from rfl]
      rw [hws, hwd]
      rw [if_pos (by simp)]
      obtain ⟨ht2, hd2⟩ := takeWhile_all_stop (fun c => decide (c ≠ ')')) t
        ('\n' :: c0 :: cs0) ')' hargs (by decide)
      simp only [List.tail_cons]
      rw [ht2, hd2]
      rw [if_pos (by simp)]
      have hws2 : ('\n' :: c0 :: cs0).takeWhile isSpaceChar = ['\n'] := by
        simp [List.takeWhile_cons, hc0s, show isSpaceChar '\n' = true from rfl]
      have hwd2 : ('\n' :: c0 :: cs0).dropWhile isSpaceChar = c0 :: cs0 := by
        simp [List.dropWhile_cons, hc0s, show isSpaceChar '\n' = true from rfl]
      simp only [List.tail_cons]
      rw [hws2, hwd2]
      simp [Annot.render, harg]

/-- The starred group over well-formed blocks followed by the signature
consumes all blocks; the capture is the last block. -/
theorem consumeRunAux_render (bs : List Annot) (b : Annot) (f : Nat)
    (hbs : ∀ x ∈ bs, validAnnot x = true) (hb : validAnnot b = true)
    (hf : (renderAll (bs ++ [b]) ++ sigM).length ≤ f) :
    consumeRunAux f (renderAll (bs ++ [b]) ++ sigM) =
      (some b.render, renderAll (bs ++ [b]), sigM) := by
  induction bs generalizing f with
  | nil =>
    have hsh : renderAll ([] ++ [b]) ++ sigM = b.render ++ sigM := by
      simp [renderAll]
    rw [hsh] at hf ⊢
    cases f with
    | zero =>
      exfalso
      have h1 : 1 ≤ b.render.length := by simp [Annot.render]
      rw [List.length_append] at hf
      omega
    | succ f' =>
      rw [consumeRunAux, consumeBlock_render b sigM hb (Or.inr rfl)]
      dsimp only
      rw [consumeRunAux_stop sigM (by rfl) f']
      simp [renderAll]
  | cons b0 bt ih =>
    have hsh : renderAll ((b0 :: bt) ++ [b]) ++ sigM =
        b0.render ++ (renderAll (bt ++ [b]) ++ sigM) := by
      simp [renderAll]
    rw [hsh] at hf ⊢
    cases f with
    | zero =>
      exfalso
      have h1 : 1 ≤ b0.render.length := by simp [Annot.render]
      rw [List.length_append] at hf
      omega
    | succ f' =>
      have hhead : (renderAll (bt ++ [b]) ++ sigM).head? = some '@' ∨
          (renderAll (bt ++ [b]) ++ sigM).head? = some 'p' := by
        left
        obtain ⟨x, l', hx⟩ : ∃ x l', bt ++ [b] = x :: l' := by
          cases bt with
          | nil => exact ⟨b, [], rfl⟩
          | cons y ys => exact ⟨y, ys ++ [b], rfl⟩
        rw [hx]
        exact renderAll_cons_head x l' sigM
      rw [consumeRunAux,
        consumeBlock_render b0 (renderAll (bt ++ [b]) ++ sigM) (hbs b0 (by simp)) hhead]
      have hf' : (renderAll (bt ++ [b]) ++ sigM).length ≤ f' := by
        rw [List.length_append] at hf
        have h2 : 1 ≤ b0.render.length := by simp [Annot.render]
        omega
      dsimp only
      rw [ih f' (fun x hx => hbs x (List.mem_cons_of_mem b0 hx)) hf']
      simp [renderAll]

theorem matchSignatureRest_sigM : matchSignatureRest sigM = some ("m".data, []) := by rfl

/-- The whole-pattern match at the start of a block run followed by the
minimal signature: the captured annotation text is the last block, the
method name is m, and group(0) is the whole text. -/
theorem matchAt_render (bs : List Annot) (b : Annot)
    (hbs : ∀ x ∈ bs, validAnnot x = true) (hb : validAnnot b = true) :
    matchAt (renderAll (bs ++ [b]) ++ sigM) =
      some ({ annotations := String.mk b.render, methodName := "m",
              group0 := String.mk (renderAll (bs ++ [b]) ++ sigM) }, []) := by
  unfold matchAt
  rw [consumeRunAux_render bs b _ hbs hb (le_refl _)]
  dsimp only
  rw [matchSignatureRest_sigM]
  simp [← List.length_append, List.take_length]

theorem findMatches_render (bs : List Annot) (b : Annot)
    (hbs : ∀ x ∈ bs, validAnnot x = true) (hb : validAnnot b = true) :
    findMatches (String.mk (renderAll (bs ++ [b]) ++ sigM)) =
      [{ annotations := String.mk b.render, methodName := "m",
         group0 := String.mk (renderAll (bs ++ [b]) ++ sigM) }] := by
  unfold findMatches
  show findAllAux (renderAll (bs ++ [b]) ++ sigM).length (renderAll (bs ++ [b]) ++ sigM) = _
  have hne : renderAll (bs ++ [b]) ++ sigM ≠ [] := by
    cases bs <;> simp [renderAll, Annot.render]
  cases hC : renderAll (bs ++ [b]) ++ sigM with
  | nil => exact absurd hC hne
  | cons c T =>
    simp only [List.length_cons]
    rw [findAllAux]
    rw [← hC, matchAt_render bs b hbs hb]
    dsimp only
    rw [findAllAux_nil]

/-- Claim C2: with several annotation blocks before a public method
signature, the repeated capture group retains only the last block, so
only it is consulted for the HTTP method, the method-level path and the
media types.  Consequently the method is skipped entirely when the last
block carries no HTTP marker (for example a GET annotation followed by a
path annotation), and a path, consumes or produces annotation written
before a final GET block is ignored: the emitted data has an empty
method-level path and empty extracted media lists. -/
theorem c2_last_annotation_block_wins (bs : List Annot) (a : Annot)
    (hbs : ∀ x ∈ bs, validAnnot x = true) (ha : validAnnot a = true) (hne : bs ≠ []) :
    ((findMatches (String.mk (renderAll (bs ++ [a]) ++ sigM))).map
        (fun m => m.annotations) = [String.mk a.render]) ∧
    (extract_http_method (String.mk a.render) = none →
      ∀ base, extract_endpoints (String.mk (renderAll (bs ++ [a]) ++ sigM)) base = []) ∧
    (a = { name := "GET".data, arg := none } →
      (findMatches (String.mk (renderAll (bs ++ [a]) ++ sigM))).map
          (fun m => (extract_http_method m.annotations, extract_method_path m.annotations,
                     extract_media_types m.annotations "@Consumes",
                     extract_media_types m.annotations "@Produces"))
        = [(some HttpMethod.GET, "", [], [])]) := by
  have hfm := findMatches_render bs a hbs ha
  refine ⟨?_, ?_, ?_⟩
  · rw [hfm]
    rfl
  · intro hnone base
    unfold extract_endpoints endpointsOfMatches
    rw [hfm]
    simp only [List.filterMap_cons,
      mkEndpointOfMatch_none base
        { annotations := String.mk a.render, methodName := "m",
          group0 := String.mk (renderAll (bs ++ [a]) ++ sigM) } hnone]
    rfl
  · intro hGET
    subst hGET
    rw [hfm]
    rfl

theorem c2_witness :
    (findMatches (String.mk (renderAll ([{ name := "GET".data, arg := none }] ++
        [{ name := "Path".data, arg := some "\"/x\"".data }]) ++ sigM))).map
      (fun m => m.annotations)
      = [String.mk (Annot.render { name := "Path".data, arg := some "\"/x\"".data })] :=
  (c2_last_annotation_block_wins [{ name := "GET".data, arg := none }]
    { name := "Path".data, arg := some "\"/x\"".data }
    (by intro x hx; simp at hx; subst hx; decide) (by decide)
    (by simp)).1

theorem lookupA_upsertA_self (k : String) (v : β) (l : List (String × β)) :
    lookupA k (upsertA k v l) = some v := by
  induction l with
  | nil => simp [upsertA, lookupA]
  | cons h t ih =>
    obtain ⟨k2, v2⟩ := h
    by_cases hk : k2 = k
    · simp [upsertA, hk, lookupA]
    · simp [upsertA, hk, lookupA, ih]

theorem lookupA_upsertA_ne (k k2 : String) (hne : k2 ≠ k) (v : β) (l : List (String × β)) :
    lookupA k2 (upsertA k v l) = lookupA k2 l := by
  have hkk : ¬ k = k2 := fun h => hne h.symm
  induction l with
  | nil => simp [upsertA, lookupA, hkk]
  | cons h t ih =>
    obtain ⟨k3, v3⟩ := h
    by_cases hk : k3 = k
    · subst hk
      simp [upsertA, lookupA, hkk]
    · simp [upsertA, hk, lookupA, ih]

/-- Adding one endpoint to the paths object makes exactly its
(path, lowercased method) pair present, on top of what was there. -/
theorem pathsHasPair_add (cn : String) (e : Endpoint) (paths : PathsDoc) (p m : String) :
    pathsHasPair (addEndpointToPaths cn e paths) p m ↔
      (p = e.path ∧ m = methodLower e.method) ∨ pathsHasPair paths p m := by
  unfold addEndpointToPaths pathsHasPair
  by_cases hp : p = e.path
  · subst hp
    rw [lookupA_upsertA_self]
    constructor
    · rintro ⟨ops, hops, hm⟩
      rw [Option.some.injEq] at hops
      subst hops
      by_cases hm2 : m = methodLower e.method
      · exact Or.inl ⟨rfl, hm2⟩
      · rw [lookupA_upsertA_ne _ _ hm2] at hm
        cases hpp : lookupA e.path paths with
        | none => rw [hpp] at hm; simp [lookupA] at hm
        | some ops0 =>
          rw [hpp] at hm
          exact Or.inr ⟨ops0, rfl, hm⟩
    · rintro (⟨_, hm⟩ | ⟨ops, hops, hm⟩)
      · subst hm
        refine ⟨_, rfl, ?_⟩
        rw [lookupA_upsertA_self]
        rfl
      · refine ⟨_, rfl, ?_⟩
        by_cases hm2 : m = methodLower e.method
        · subst hm2
          rw [lookupA_upsertA_self]
          rfl
        · rw [lookupA_upsertA_ne _ _ hm2]
          cases hpp : lookupA e.path paths with
          | none => rw [hpp] at hops; exact absurd hops (by simp)
          | some ops0 =>
            rw [hpp] at hops
            rw [Option.some.injEq] at hops
            subst hops
            simpa using hm
  · rw [lookupA_upsertA_ne _ _ hp]
    simp only [hp, false_and, false_or]

theorem pathsHasPair_foldl_endpoints (cn : String) (es : List Endpoint)
    (acc : PathsDoc) (p m : String) :
    pathsHasPair (es.foldl (fun a e => addEndpointToPaths cn e a) acc) p m ↔
      (∃ e ∈ es, p = e.path ∧ m = methodLower e.method) ∨ pathsHasPair acc p m := by
  induction es generalizing acc with
  | nil => simp
  | cons e t ih =>
    simp only [List.foldl_cons, ih, pathsHasPair_add, List.mem_cons]
    constructor
    · rintro (⟨x, hx, hxx⟩ | (h | h))
      · exact Or.inl ⟨x, Or.inr hx, hxx⟩
      · exact Or.inl ⟨e, Or.inl rfl, h⟩
      · exact Or.inr h
    · rintro (⟨x, hx | hx, hxx⟩ | h)
      · subst hx
        exact Or.inr (Or.inl hxx)
      · exact Or.inl ⟨x, hx, hxx⟩
      · exact Or.inr (Or.inr h)

theorem pathsHasPair_generate (resources : List APIResource) (p m : String) :
    pathsHasPair (generatePaths resources) p m ↔
      ∃ r ∈ resources, ∃ e ∈ r.endpoints, e.path = p ∧ methodLower e.method = m := by
  unfold generatePaths
  suffices h : ∀ acc : PathsDoc,
      pathsHasPair (resources.foldl
        (fun acc2 r => r.endpoints.foldl (fun a e => addEndpointToPaths r.class_name e a) acc2)
        acc) p m ↔
      (∃ r ∈ resources, ∃ e ∈ r.endpoints, e.path = p ∧ methodLower e.method = m) ∨
        pathsHasPair acc p m by
    rw [h []]
    have hnil : ¬ pathsHasPair [] p m := by
      rintro ⟨ops, hops, _⟩
      simp [lookupA] at hops
    simp [hnil]
  intro acc
  induction resources generalizing acc with
  | nil => simp
  | cons r t ih =>
    simp only [List.foldl_cons, ih, pathsHasPair_foldl_endpoints, List.mem_cons]
    constructor
    · rintro (⟨x, hx, he⟩ | (⟨e, he, h1, h2⟩ | h))
      · exact Or.inl ⟨x, Or.inr hx, he⟩
      · exact Or.inl ⟨r, Or.inl rfl, e, he, h1.symm, h2.symm⟩
      · exact Or.inr h
    · rintro (⟨x, hx | hx, e, he, h1, h2⟩ | h)
      · subst hx
        exact Or.inr (Or.inl ⟨e, he, h1.symm, h2.symm⟩)
      · exact Or.inl ⟨x, hx, e, he, h1, h2⟩
      · exact Or.inr (Or.inr h)

/-- Claim C8: a (path, lowercased method) pair occurs among the
path/operation keys of the document OpenAPIGenerator.generate builds
exactly when some endpoint of some input resource has that path and
method; duplicate pairs collapse into the single dictionary entry, so the
key set of the document equals the set of endpoint pairs.  (The document
structure is the in-memory one; serialization to text and re-parsing is
the identity on it.) -/
theorem c8_generate_pairs (resources : List APIResource) (title version p m : String) :
    pathsHasPair (openAPIGenerate resources title version).paths p m ↔
      ∃ r ∈ resources, ∃ e ∈ r.endpoints, e.path = p ∧ methodLower e.method = m :=
  pathsHasPair_generate resources p m

end ApiDiscovery
